import Mathlib

/-!
Verification of the FoM emulator script (`static/fom_emulator/fom_emulator.py`).

The script loads precomputed Figure-of-Merit (FoM) values on a 3x3
(area, depth) grid for four survey years, loads a per-year strategy table,
and evaluates a 2D interpolant at each strategy's (area, depth),
optionally dividing by a process-wide renormalization constant.

Shallow embedding conventions:
* Python floats are modelled as exact rationals (`ℚ`); the claims under
  study are about control flow, ordering and exact algebraic identities,
  not rounding.
* The scipy `interp2d` interpolant is an external library object; it is
  modelled as an abstract function `f : ℚ → ℚ → ℚ` passed to `emulate_fom`.
* Fallible operations (out-of-range indexing, unparseable text, `raise`)
  return `Except String`.
* The numpy array `fom_arr[...,year]` for a fixed year is a function
  `Fin 3 → Fin 3 → ℚ` updated functionally.
-/

deriving instance DecidableEq for Except

/-- The four survey-year tokens (`year_vals` in the source). -/
def year_vals : List String := ["Y1", "Y3", "Y6", "Y10"]

/-- The hardcoded area table (`areas` in the source): 3 grid values per year,
in square degrees.  Column 0 is `[7.5, 13, 16] * 1000`, columns 1-3 are
`[10, 15, 20] * 1000`. -/
def areas (i : Fin 3) (year_ind : Fin 4) : ℚ :=
  if year_ind.val = 0 then
    if i.val = 0 then 7500 else if i.val = 1 then 13000 else 16000
  else
    if i.val = 0 then 10000 else if i.val = 1 then 15000 else 20000

/-- The initial value of the module-level renormalization cache
(`renorm_value = -100.0` in the source). -/
def renorm_value_init : ℚ := -100

/-- Test whether `needle` is a prefix of `hay` (on char lists). -/
def prefixOfLC : List Char → List Char → Bool
  | [], _ => true
  | _ :: _, [] => false
  | a :: as, b :: bs => a = b && prefixOfLC as bs

/-- Test whether `needle` occurs contiguously inside `hay`. -/
def subOfLC : List Char → List Char → Bool
  | needle, [] => prefixOfLC needle []
  | needle, h :: t => prefixOfLC needle (h :: t) || subOfLC needle t

/-- Model of Python's substring test `needle in hay` on strings. -/
def strContainsPy (hay needle : String) : Bool :=
  subOfLC needle.toList hay.toList

/-- Characters stripped by Python's `str.strip()` (the whitespace that
occurs in the input files). -/
def isSpaceChar (c : Char) : Bool :=
  c = ' ' || c = '\t' || c = '\n' || c = '\r'

/-- Strip leading and trailing whitespace from a char list
(model of `str.strip()`). -/
def trimCL (cs : List Char) : List Char :=
  ((cs.dropWhile isSpaceChar).reverse.dropWhile isSpaceChar).reverse

/-- Model of Python `str.strip()`. -/
def strTrimPy (s : String) : String := String.mk (trimCL s.toList)

/-- Splitting a char list on a separator character
(model of `str.split(sep)` for a one-character `sep`). -/
def splitOnCharAux (sep : Char) : List Char → List Char → List (List Char)
  | [], acc => [acc.reverse]
  | c :: rest, acc =>
    if c = sep then acc.reverse :: splitOnCharAux sep rest []
    else splitOnCharAux sep rest (c :: acc)

/-- Model of Python `str.split(sep)` for a one-character separator. -/
def pySplit (sep : Char) (s : String) : List String :=
  (splitOnCharAux sep s.toList []).map String.mk

/-- Accumulate the value of a run of decimal digits; any non-digit fails. -/
def digitsToNatAux : List Char → ℕ → Option ℕ
  | [], acc => some acc
  | c :: rest, acc =>
    if c.isDigit then digitsToNatAux rest (acc * 10 + (c.toNat - 48))
    else none

/-- Parse a nonempty run of decimal digits. -/
def parseDigits : List Char → Option ℕ
  | [] => none
  | c :: rest => digitsToNatAux (c :: rest) 0

/-- The exact rational value of the decimal literal with integer part `a`,
fractional digits worth `b`, and `k` fractional digits: `(a*10^k + b)/10^k`. -/
def decVal (a b : ℕ) (k : ℕ) : ℚ :=
  Rat.divInt (Int.ofNat (a * 10 ^ k + b)) (Int.ofNat (10 ^ k))

/-- Model of the builtin `float()` on an unsigned plain decimal literal
(digits, optionally followed by `.` and digits); other float syntaxes
(exponents, `inf`, a bare trailing dot) are outside the model and yield
`none`, as does any string `float()` would reject. -/
def parseUnsignedDecimalCL (cs : List Char) : Option ℚ :=
  match splitOnCharAux '.' cs [] with
  | [i] => (parseDigits i).map (fun n => (n : ℚ))
  | [i, f] =>
    match parseDigits i, parseDigits f with
    | some a, some b => some (decVal a b f.length)
    | _, _ => none
  | _ => none

/-- Model of the builtin `float()` applied to a string: strips surrounding
whitespace, then parses an optionally negated decimal literal. -/
def pyFloat (s : String) : Option ℚ :=
  match trimCL s.toList with
  | '-' :: rest => (parseUnsignedDecimalCL rest).map (fun q => -q)
  | t => parseUnsignedDecimalCL t

/-- Model of the builtin `int()` applied to a string: strips surrounding
whitespace, then parses an optionally negated run of digits. -/
def pyIntOfString (s : String) : Option ℤ :=
  match trimCL s.toList with
  | '-' :: rest => (parseDigits rest).map (fun n => -(n : ℤ))
  | t => (parseDigits t).map (fun n => (n : ℤ))

/-- Model of the builtin `int()` applied to a float: truncation toward zero. -/
def pyTrunc (q : ℚ) : ℤ :=
  Int.tdiv q.num (Int.ofNat q.den)

/-- Model of `float(line.split('=')[1])` from `load_foms`: the text after the first
`=` is parsed as a float; a line without `=` raises (modelled as `none`). -/
def pyFloatAfterEq (line : String) : Option ℚ :=
  match (pySplit '=' line).get? 1 with
  | none => none
  | some s => pyFloat s

/-- The all-zero 3x3 grid: one year's slice of `np.zeros((3,3,len(year_vals)))`. -/
def zeroGrid : Fin 3 → Fin 3 → ℚ := fun _ _ => 0

/-- Functional update of one cell of a 3x3 grid
(`fom_arr[i, j, year_ind] = v`). -/
def updateGrid (g : Fin 3 → Fin 3 → ℚ) (i j : Fin 3) (v : ℚ) :
    Fin 3 → Fin 3 → ℚ :=
  fun a b => if a = i ∧ b = j then v else g a b

/-- The line loop of `load_foms` (source lines 108-115): for each line
containing `grep_str`, parse `float(line.split('=')[1])` and store it at
`fom_arr[int(n_found/3), n_found % 3]`, incrementing `n_found`.  A row index
`n_found / 3 ≥ 3` is a numpy out-of-bounds write and raises `IndexError`. -/
def processLines (grep_str : String) :
    List String → ℕ → (Fin 3 → Fin 3 → ℚ) →
      Except String (ℕ × (Fin 3 → Fin 3 → ℚ))
  | [], n_found, g => .ok (n_found, g)
  | line :: rest, n_found, g =>
    if strContainsPy line grep_str then
      match pyFloatAfterEq line with
      | none => .error "ValueError"
      | some v =>
        if h : n_found / 3 < 3 then
          processLines grep_str rest (n_found + 1)
            (updateGrid g ⟨n_found / 3, h⟩
              ⟨n_found % 3, Nat.mod_lt _ (by norm_num)⟩ v)
        else .error "IndexError"
    else processLines grep_str rest n_found g

/-- The placement part of the line loop, acting on the already-parsed values
of the qualifying lines (proof helper for `processLines`). -/
def placeValues : List ℚ → ℕ → (Fin 3 → Fin 3 → ℚ) →
    Except String (ℕ × (Fin 3 → Fin 3 → ℚ))
  | [], n, g => .ok (n, g)
  | v :: rest, n, g =>
    if h : n / 3 < 3 then
      placeValues rest (n + 1)
        (updateGrid g ⟨n / 3, h⟩ ⟨n % 3, Nat.mod_lt _ (by norm_num)⟩ v)
    else .error "IndexError"

/-- Parse every line of a list with `pyFloatAfterEq`, failing if any fails. -/
def parseAll : List String → Option (List ℚ)
  | [] => some []
  | l :: rest =>
    match pyFloatAfterEq l, parseAll rest with
    | some v, some vs => some (v :: vs)
    | _, _ => none

/-- The fake-area rescaling of `load_foms` (source lines 117-130): overwrite
the six off-diagonal cells of one year's grid from the diagonal cells, using
the ratio of the fixed per-year area constants. -/
def fakeAreaRescale (year_ind : Fin 4) (g0 : Fin 3 → Fin 3 → ℚ) :
    Fin 3 → Fin 3 → ℚ :=
  let g1 := updateGrid g0 1 0 (g0 0 0 * areas 1 year_ind / areas 0 year_ind)
  let g2 := updateGrid g1 2 0 (g1 0 0 * areas 2 year_ind / areas 0 year_ind)
  let g3 := updateGrid g2 0 1 (g2 1 1 * areas 0 year_ind / areas 1 year_ind)
  let g4 := updateGrid g3 2 1 (g3 1 1 * areas 2 year_ind / areas 1 year_ind)
  let g5 := updateGrid g4 0 2 (g4 2 2 * areas 0 year_ind / areas 2 year_ind)
  let g6 := updateGrid g5 1 2 (g5 2 2 * areas 1 year_ind / areas 2 year_ind)
  g6

/-- The inner check of the file-selection loop of `load_foms`: is one of the
other year tokens (one that is not a substring of `year_str` itself)
contained in `file_name`? -/
def otherYearFound (year_str file_name : String) : Bool :=
  year_vals.any (fun tmp =>
    tmp != year_str && !(strContainsPy year_str tmp) &&
      strContainsPy file_name tmp)

/-- The file-selection loop of `load_foms` (source lines 83-96): scan the
directory listing, keeping the unique file that contains `year_str` but no
other year token; two distinct matches raise `ValueError`. -/
def findYearFile (year_str : String) :
    List String → Option String → Except String (Option String)
  | [], acc => .ok acc
  | file_name :: rest, acc =>
    if strContainsPy file_name year_str &&
        !(otherYearFound year_str file_name) then
      match acc with
      | none => findYearFile year_str rest (some file_name)
      | some my_file =>
        if my_file != file_name then
          .error "Year found more than once in dir!"
        else findYearFile year_str rest acc
    else findYearFile year_str rest acc

/-- File selection of `load_foms` for one year: the loop above, plus the
`Year not found` error when no file matched (source lines 97-98). -/
def selectYearFile (year_str : String) (file_list : List String) :
    Except String String :=
  match findYearFile year_str file_list none with
  | .error e => .error e
  | .ok none => .error "Year not found in dir!"
  | .ok (some f) => .ok f

/-- One year of `load_foms`: select the file for a year from a directory
listing, filter its lines on the prior marker and fill the 3x3 grid,
then optionally apply the fake-area rescaling.  `contents` maps a file
name to the lines of that file. -/
def load_foms_year (file_list : List String) (contents : String → List String)
    (prior : Bool) (fake_area : Bool) (year_ind : Fin 4) (year_str : String) :
    Except String (Fin 3 → Fin 3 → ℚ) :=
  match selectYearFile year_str file_list with
  | .error e => .error e
  | .ok my_file =>
    let grep_str := if prior then "incl" else "excl"
    match processLines grep_str (contents my_file) 0 zeroGrid with
    | .error e => .error e
    | .ok (_, g) =>
      .ok (if fake_area then fakeAreaRescale year_ind g else g)

/-- The hardcoded per-strategy visit-count table (`husni_metric` in the
source): 19 strategies, one float per year.  Decimal literals are written as
`decVal a b k`, the exact rational `a.b` with `k` fractional digits. -/
def husni_metric : List (String × (Fin 4 → ℚ)) :=
  [("rolling_10yrs_opsim", ![decVal 19 17009607686149 14, decVal 67 3196 5, decVal 140 13828 5, decVal 233 2816 5]),
  ("rolling_mix_10yrs_opsim", ![decVal 17 827055447412253 15, decVal 62 7963 4, decVal 133 4886 4, decVal 223 60182 5]),
  ("baseline2018a", ![decVal 14 59823342079436 14, decVal 65 8548 5, decVal 147 488 5, decVal 258 2933 4]),
  ("colossus_2664", ![decVal 13 983119554695064 15, decVal 64 4174 5, decVal 143 77374 5, decVal 252 1407 4]),
  ("colossus_2665", ![decVal 14 675119972692409 15, decVal 65 4227 4, decVal 145 51038 5, decVal 257 6914 4]),
  ("colossus_2667", ![decVal 14 156289402581807 15, decVal 67 1718 5, decVal 150 84012 5, decVal 267 87976 5]),
  ("kraken_2026", ![decVal 15 50727567502652 14, decVal 67 57038 5, decVal 150 43662 5, decVal 267 3468 5]),
  ("kraken_2035", ![decVal 15 751901825752723 15, decVal 67 16228 5, decVal 147 68512 5, decVal 262 56644 5]),
  ("kraken_2036", ![decVal 15 746321613278274 15, decVal 54 3136 4, decVal 111 16146 5, decVal 216 34454 5]),
  ("kraken_2042", ![decVal 16 66430918416413 14, decVal 72 25023000920037 14, decVal 162 7506150123004 14, decVal 283 98536 5]),
  ("kraken_2044", ![decVal 10 745318502725427 15, decVal 49 68256 5, decVal 114 5921 4, decVal 201 4586 4]),
  ("mothra_2045", ![decVal 30 52469022205864 14, decVal 57 79377338482163 14, decVal 107 63368 5, decVal 181 36768 5]),
  ("nexus_2097", ![decVal 11 600585597575709 15, decVal 49 2615 4, decVal 105 93476 5, decVal 196 6197 4]),
  ("pontus_2002", ![decVal 11 785008704101049 15, decVal 51 90274 5, decVal 113 13634 5, decVal 200 76312 5]),
  ("pontus_2489", ![decVal 24 132090956403378 15, decVal 96 123 3, decVal 208 12806 5, decVal 369 85366 5]),
  ("alt_sched", ![decVal 19 97984 5, decVal 56 72922 5, decVal 112 4002 5, decVal 185 9261 4]),
  ("alt_sched_rolling", ![decVal 37 47584628358029 14, decVal 53 85072 5, decVal 109 68314 5, decVal 184 13812 5]),
  ("pontus_2502", ![decVal 15 488642770841723 15, decVal 62 17139085035306 14, decVal 129 36377275455092 14, decVal 210 57829565913184 14]),
  ("mothra_2049", ![decVal 24 335122196054208 15, decVal 45 69528 5, decVal 103 20514 5, decVal 188 75324 5])]

/-- Lookup of `husni_metric[name]` with the membership test of the source
(`tmp_vals[1].strip() in husni_metric.keys()`). -/
def husniLookup (name : String) : Option (Fin 4 → ℚ) :=
  List.lookup name husni_metric

/-- One parsed row of a strategy table. -/
structure StratRow where
  strat_name : String
  area : ℚ
  median_depth : ℚ
  niexp : ℤ
deriving DecidableEq

/-- The visit-count logic of `load_strategy_table` (source lines 153-160):
use field 13 when the row has exactly 14 pipe-delimited fields and that
field is non-empty, otherwise fall back to the truncated `husni_metric`
entry for the strategy name, or 0 when the name is absent. -/
def niexpOf (tmp_vals : List String) (year_ind : Fin 4) : Except String ℤ :=
  if tmp_vals.length = 14 ∧ tmp_vals.getD 13 "" ≠ "" then
    match pyIntOfString (tmp_vals.getD 13 "") with
    | some v => .ok v
    | none => .error "ValueError"
  else
    match husniLookup (strTrimPy (tmp_vals.getD 1 "")) with
    | some row => .ok (pyTrunc (row year_ind))
    | none => .ok 0

/-- One iteration of the line loop of `load_strategy_table` (source lines
148-160): split the line on pipes; fields 1, 3, 4 are the stripped name,
the area and the median depth; the visit count comes from `niexpOf`.
Missing fields or unparseable floats raise. -/
def parseStratLine (year_ind : Fin 4) (line : String) : Except String StratRow :=
  let tmp_vals := pySplit '|' line
  match tmp_vals.get? 1, tmp_vals.get? 3, tmp_vals.get? 4 with
  | some f1, some f3, some f4 =>
    match pyFloat f3, pyFloat f4 with
    | some a, some d =>
      match niexpOf tmp_vals year_ind with
      | .ok v => .ok ⟨strTrimPy f1, a, d, v⟩
      | .error e => .error e
    | _, _ => .error "ValueError"
  | _, _, _ => .error "IndexError"

/-- The result of one `emulate_fom` call: the emulated FoM sequence and the
value of the module-level `renorm_value` after the call. -/
structure EmulateResult where
  fom_vals : List ℚ
  renorm_value : ℚ
deriving DecidableEq

/-- Model of Python `list.index`: index of the first occurrence, `none`
(an exception in Python) when absent. -/
def pyIndex : List String → String → Option ℕ
  | [], _ => none
  | x :: xs, a => if x = a then some 0 else (pyIndex xs a).map (fun i => i + 1)

/-- The output loop of `emulate_fom` (source lines 248-250):
`f(area_vals[ind], depth_vals[ind])[0] / tmp_renorm_value` for
`ind in range(len(area_vals))`; a shorter `depth_vals` raises `IndexError`. -/
def evalLoop (f : ℚ → ℚ → ℚ) (c : ℚ) : List ℚ → List ℚ → Except String (List ℚ)
  | [], _ => .ok []
  | _ :: _, [] => .error "IndexError"
  | a :: as, d :: ds =>
    match evalLoop f c as ds with
    | .ok t => .ok (f a d / c :: t)
    | .error e => .error e

/-- Model of `emulate_fom` (source lines 194-251), with the interpolant abstracted as
`f` and the module-level state passed explicitly: `renorm_strategy` is the
configured reference-strategy name (`None` disables renormalization) and
`renorm_value` the process-wide cache on entry.  The plotting block and the
self-evaluation of the interpolant on the grid are side effects that do not
touch the returned values and are not modelled. -/
def emulate_fom (renorm_strategy : Option String) (renorm_value : ℚ)
    (f : ℚ → ℚ → ℚ) (area_vals depth_vals : List ℚ)
    (strategy_name : Option (List String)) : Except String EmulateResult :=
  match renorm_strategy with
  | none =>
    match evalLoop f 1 area_vals depth_vals with
    | .ok l => .ok ⟨l, renorm_value⟩
    | .error e => .error e
  | some rs =>
    if renorm_value > 0 then
      match evalLoop f renorm_value area_vals depth_vals with
      | .ok l => .ok ⟨l, renorm_value⟩
      | .error e => .error e
    else
      match strategy_name with
      | none => .error "No strategy list was passed in!"
      | some names =>
        match pyIndex names rs with
        | none => .error "ValueError"
        | some tmp_ind =>
          match area_vals.get? tmp_ind, depth_vals.get? tmp_ind with
          | some a, some d =>
            match evalLoop f (f a d) area_vals depth_vals with
            | .ok l => .ok ⟨l, f a d⟩
            | .error e => .error e
          | _, _ => .error "IndexError"

/-- Did an `Except`-valued computation succeed? -/
def isOkE {ε α : Type} : Except ε α → Bool
  | .ok _ => true
  | .error _ => false

/-- The grid obtained from `g` by writing the values `vs` into consecutive
cells starting at flat position `n`, in the `(n / 3, n % 3)` order of the
source. -/
def gridFill (g : Fin 3 → Fin 3 → ℚ) (n : ℕ) (vs : List ℚ) :
    Fin 3 → Fin 3 → ℚ :=
  fun i j =>
    if n ≤ 3 * i.val + j.val ∧ 3 * i.val + j.val < n + vs.length then
      vs.getD (3 * i.val + j.val - n) 0
    else g i j

lemma processLines_eq_placeValues (grep_str : String) :
    ∀ (lines : List String) (vs : List ℚ) (n : ℕ) (g : Fin 3 → Fin 3 → ℚ),
      parseAll (lines.filter (fun l => strContainsPy l grep_str)) = some vs →
      processLines grep_str lines n g = placeValues vs n g := by
  intro lines
  induction lines with
  | nil =>
    intro vs n g hp
    simp only [List.filter_nil, parseAll, Option.some.injEq] at hp
    subst hp
    rfl
  | cons l rest ih =>
    intro vs n g hp
    by_cases hc : strContainsPy l grep_str
    · rw [List.filter_cons_of_pos (by simpa using hc)] at hp
      simp only [parseAll] at hp
      rcases hv : pyFloatAfterEq l with _ | v
      · rw [hv] at hp; cases hp
      · rw [hv] at hp
        rcases hrest : parseAll (rest.filter (fun x => strContainsPy x grep_str))
            with _ | vs'
        · rw [hrest] at hp; cases hp
        · rw [hrest] at hp
          simp only [Option.some.injEq] at hp
          subst hp
          simp only [processLines, hc, if_true, hv, placeValues]
          by_cases hdiv : n / 3 < 3
          · rw [dif_pos hdiv, dif_pos hdiv]
            exact ih vs' (n + 1) _ hrest
          · rw [dif_neg hdiv, dif_neg hdiv]
    · rw [List.filter_cons_of_neg (by simpa using hc)] at hp
      simp only [processLines, hc, if_false]
      exact ih vs n g hp

lemma placeValues_fill :
    ∀ (vs : List ℚ) (n : ℕ) (g : Fin 3 → Fin 3 → ℚ), n + vs.length ≤ 9 →
      placeValues vs n g = .ok (n + vs.length, gridFill g n vs) := by
  intro vs
  induction vs with
  | nil =>
    intro n g _
    simp only [placeValues, List.length_nil, Nat.add_zero]
    congr 1
    refine Prod.ext rfl ?_
    funext i j
    simp only [gridFill, List.length_nil]
    rw [if_neg (by omega)]
  | cons v rest ih =>
    intro n g h9
    simp only [List.length_cons] at h9 ⊢
    have hdiv : n / 3 < 3 := by omega
    simp only [placeValues]
    rw [dif_pos hdiv]
    rw [ih (n + 1) _ (by omega)]
    congr 1
    refine Prod.ext (by omega) ?_
    funext i j
    have hi3 := i.isLt
    have hj3 := j.isLt
    simp only [gridFill, updateGrid, List.length_cons]
    by_cases h1 : n + 1 ≤ 3 * i.val + j.val ∧
        3 * i.val + j.val < n + 1 + rest.length
    · rw [if_pos h1, if_pos (by omega)]
      have hsub : 3 * i.val + j.val - n = (3 * i.val + j.val - (n + 1)) + 1 := by
        omega
      rw [hsub]
      rfl
    · rw [if_neg h1]
      by_cases h2 : n ≤ 3 * i.val + j.val ∧
          3 * i.val + j.val < n + (rest.length + 1)
      · rw [if_pos h2]
        have hk : 3 * i.val + j.val = n := by omega
        have hiv : i.val = n / 3 := by omega
        have hjv : j.val = n % 3 := by omega
        rw [if_pos ⟨Fin.ext hiv, Fin.ext hjv⟩]
        rw [hk, Nat.sub_self]
        rfl
      · rw [if_neg h2]
        rw [if_neg ?_]
        rintro ⟨hif, hjf⟩
        have hiv : i.val = n / 3 := congrArg Fin.val hif
        have hjv : j.val = n % 3 := congrArg Fin.val hjf
        omega

lemma placeValues_overflow :
    ∀ (vs : List ℚ) (n : ℕ) (g : Fin 3 → Fin 3 → ℚ), n ≤ 9 →
      9 < n + vs.length → isOkE (placeValues vs n g) = false := by
  intro vs
  induction vs with
  | nil =>
    intro n g hn hlen
    simp only [List.length_nil] at hlen
    omega
  | cons v rest ih =>
    intro n g hn hlen
    simp only [List.length_cons] at hlen
    simp only [placeValues]
    by_cases hdiv : n / 3 < 3
    · rw [dif_pos hdiv]
      exact ih (n + 1) _ (by omega) (by omega)
    · rw [dif_neg hdiv]
      rfl

/-- C2: for a well-formed grid file whose qualifying lines for the requested
prior marker number exactly 9 and all parse, the n-th qualifying value
(0-indexed) lands in grid cell `(n / 3, n % 3)`. -/
theorem load_foms_grid_placement (grep_str : String) (lines : List String)
    (vs : List ℚ)
    (hp : parseAll (lines.filter (fun l => strContainsPy l grep_str)) = some vs)
    (h9 : vs.length = 9) :
    processLines grep_str lines 0 zeroGrid =
      .ok (9, fun i j => vs.getD (3 * i.val + j.val) 0) := by
  rw [processLines_eq_placeValues grep_str lines vs 0 zeroGrid hp]
  rw [placeValues_fill vs 0 zeroGrid (by omega)]
  congr 1
  refine Prod.ext (by simpa using h9) ?_
  funext i j
  have hi3 := i.isLt
  have hj3 := j.isLt
  simp only [gridFill, h9]
  rw [if_pos (by omega), Nat.sub_zero]

/-- C2 witness: the end-to-end scenario of the spec, a grid file with lines
`excl_fom=10.0` through `excl_fom=90.0` producing the matrix
`[[10,20,30],[40,50,60],[70,80,90]]`. -/
theorem load_foms_grid_placement_applied :
    processLines "excl"
        ["excl_fom=10.0", "excl_fom=20.0", "excl_fom=30.0", "excl_fom=40.0",
         "excl_fom=50.0", "excl_fom=60.0", "excl_fom=70.0", "excl_fom=80.0",
         "excl_fom=90.0"] 0 zeroGrid =
      .ok (9, fun i j =>
        ([10, 20, 30, 40, 50, 60, 70, 80, 90] : List ℚ).getD
          (3 * i.val + j.val) 0) :=
  load_foms_grid_placement "excl"
    ["excl_fom=10.0", "excl_fom=20.0", "excl_fom=30.0", "excl_fom=40.0",
     "excl_fom=50.0", "excl_fom=60.0", "excl_fom=70.0", "excl_fom=80.0",
     "excl_fom=90.0"]
    [10, 20, 30, 40, 50, 60, 70, 80, 90] (by decide) (by decide)

/-- C9 counterexample: with 10 qualifying lines the placement loop of
`load_foms` raises an out-of-bounds `IndexError` instead of silently
misindexing — the claim that the load does not fail is false. -/
theorem overfull_grid_file_fails :
    isOkE (processLines "excl" (List.replicate 10 "excl=1.0") 0 zeroGrid) =
      false := by decide

/-- C9 amended: `load_foms` performs no count validation; with at most 9
qualifying lines it does not fail and silently leaves the cells past the
parsed count at zero, while with more than 9 qualifying lines the 10th
placement is an out-of-bounds write that raises `IndexError`. -/
theorem line_count_unvalidated (grep_str : String) (lines : List String)
    (vs : List ℚ)
    (hp : parseAll (lines.filter (fun l => strContainsPy l grep_str)) = some vs) :
    (vs.length ≤ 9 →
      processLines grep_str lines 0 zeroGrid =
        .ok (vs.length, gridFill zeroGrid 0 vs) ∧
      ∀ i j : Fin 3, vs.length ≤ 3 * i.val + j.val →
        gridFill zeroGrid 0 vs i j = 0) ∧
    (9 < vs.length →
      isOkE (processLines grep_str lines 0 zeroGrid) = false) := by
  constructor
  · intro hle
    constructor
    · rw [processLines_eq_placeValues grep_str lines vs 0 zeroGrid hp]
      rw [placeValues_fill vs 0 zeroGrid (by omega)]
      rw [Nat.zero_add]
    · intro i j hk
      simp only [gridFill]
      rw [if_neg (by omega)]
      rfl
  · intro hgt
    rw [processLines_eq_placeValues grep_str lines vs 0 zeroGrid hp]
    exact placeValues_overflow vs 0 zeroGrid (by omega) (by omega)

/-- C9 witness: a 7-line file loads without failure and leaves the trailing
cells zero, and an 11-line file fails. -/
theorem line_count_unvalidated_applied :
    processLines "excl" (List.replicate 7 "excl=3.0") 0 zeroGrid =
      .ok (7, gridFill zeroGrid 0 [3, 3, 3, 3, 3, 3, 3]) ∧
    isOkE (processLines "excl" (List.replicate 11 "excl=2.0") 0 zeroGrid) =
      false := by
  constructor
  · have h := (line_count_unvalidated "excl" (List.replicate 7 "excl=3.0")
      [3, 3, 3, 3, 3, 3, 3] (by decide)).1 (by decide)
    exact h.1
  · exact (line_count_unvalidated "excl" (List.replicate 11 "excl=2.0")
      [2, 2, 2, 2, 2, 2, 2, 2, 2, 2, 2] (by decide)).2 (by decide)

lemma fakeAreaRescale_diag (y : Fin 4) (g : Fin 3 → Fin 3 → ℚ) :
    fakeAreaRescale y g 0 0 = g 0 0 ∧ fakeAreaRescale y g 1 1 = g 1 1 ∧
    fakeAreaRescale y g 2 2 = g 2 2 :=
  ⟨rfl, rfl, rfl⟩

/-- C4: in fake-area mode, the rescaled off-diagonal cells stand to their
source diagonal cell exactly in the ratio of the per-year area constants. -/
theorem fake_area_ratio_identities (y : Fin 4) (g : Fin 3 → Fin 3 → ℚ)
    (h00 : g 0 0 ≠ 0) (h11 : g 1 1 ≠ 0) (h22 : g 2 2 ≠ 0) :
    fakeAreaRescale y g 1 0 / fakeAreaRescale y g 0 0 = areas 1 y / areas 0 y ∧
    fakeAreaRescale y g 2 0 / fakeAreaRescale y g 0 0 = areas 2 y / areas 0 y ∧
    fakeAreaRescale y g 0 1 / fakeAreaRescale y g 1 1 = areas 0 y / areas 1 y ∧
    fakeAreaRescale y g 2 1 / fakeAreaRescale y g 1 1 = areas 2 y / areas 1 y ∧
    fakeAreaRescale y g 0 2 / fakeAreaRescale y g 2 2 = areas 0 y / areas 2 y ∧
    fakeAreaRescale y g 1 2 / fakeAreaRescale y g 2 2 = areas 1 y / areas 2 y := by
  refine ⟨?_, ?_, ?_, ?_, ?_, ?_⟩
  · show g 0 0 * areas 1 y / areas 0 y / (g 0 0) = _
    rw [mul_div_assoc, mul_div_cancel_left₀ _ h00]
  · show g 0 0 * areas 2 y / areas 0 y / (g 0 0) = _
    rw [mul_div_assoc, mul_div_cancel_left₀ _ h00]
  · show g 1 1 * areas 0 y / areas 1 y / (g 1 1) = _
    rw [mul_div_assoc, mul_div_cancel_left₀ _ h11]
  · show g 1 1 * areas 2 y / areas 1 y / (g 1 1) = _
    rw [mul_div_assoc, mul_div_cancel_left₀ _ h11]
  · show g 2 2 * areas 0 y / areas 2 y / (g 2 2) = _
    rw [mul_div_assoc, mul_div_cancel_left₀ _ h22]
  · show g 2 2 * areas 1 y / areas 2 y / (g 2 2) = _
    rw [mul_div_assoc, mul_div_cancel_left₀ _ h22]

/-- C4 witness: the identities at year 0 on a concrete grid with nonzero
diagonal. -/
theorem fake_area_ratio_identities_applied :
    (fun i j : Fin 3 => ((i.val + 3 * j.val + 1 : ℕ) : ℚ)) 0 0 ≠ 0 ∧
    fakeAreaRescale 0 (fun i j : Fin 3 => ((i.val + 3 * j.val + 1 : ℕ) : ℚ)) 1 0 /
        fakeAreaRescale 0 (fun i j : Fin 3 => ((i.val + 3 * j.val + 1 : ℕ) : ℚ)) 0 0 =
      areas 1 0 / areas 0 0 := by
  refine ⟨by norm_num, ?_⟩
  exact (fake_area_ratio_identities 0 _ (by norm_num) (by norm_num) (by norm_num)).1

lemma otherYearFound_eq_false {ys fn : String}
    (h : otherYearFound ys fn = false) :
    ∀ tmp ∈ year_vals, tmp ≠ ys → strContainsPy ys tmp = false →
      strContainsPy fn tmp = false := by
  intro tmp hmem hne hsub
  by_contra hcon
  have hfn : strContainsPy fn tmp = true := by
    cases hx : strContainsPy fn tmp
    · exact absurd hx hcon
    · rfl
  have htrue : otherYearFound ys fn = true := by
    simp only [otherYearFound, List.any_eq_true]
    refine ⟨tmp, hmem, ?_⟩
    simp [hne, hsub, hfn]
  rw [h] at htrue
  cases htrue

lemma findYearFile_no_other (ys : String) :
    ∀ (fl : List String) (acc : Option String) (fn : String),
      (∀ g0, acc = some g0 → otherYearFound ys g0 = false) →
      findYearFile ys fl acc = .ok (some fn) →
      otherYearFound ys fn = false := by
  intro fl
  induction fl with
  | nil =>
    intro acc fn hacc h
    simp only [findYearFile] at h
    injection h with h
    exact hacc fn h
  | cons f rest ih =>
    intro acc fn hacc h
    simp only [findYearFile] at h
    by_cases hcond : (strContainsPy f ys && !(otherYearFound ys f)) = true
    · rw [if_pos hcond] at h
      cases acc with
      | none =>
        refine ih (some f) fn ?_ h
        intro g0 hg0
        injection hg0 with hg0
        subst hg0
        have h2 := ((Bool.and_eq_true _ _).mp hcond).2
        simpa using h2
      | some m =>
        dsimp only at h
        by_cases hmf : (m != f) = true
        · rw [if_pos hmf] at h
          cases h
        · rw [if_neg hmf] at h
          exact ih (some m) fn hacc h
    · rw [if_neg hcond] at h
      exact ih acc fn hacc h

/-- C5: a file selected by `load_foms` for a year never contains any other
year token that is not itself a substring of the requested token. -/
theorem year_file_disambiguation (ys fn : String) (file_list : List String)
    (h : selectYearFile ys file_list = .ok fn) :
    ∀ tmp ∈ year_vals, tmp ≠ ys → strContainsPy ys tmp = false →
      strContainsPy fn tmp = false := by
  have hfind : findYearFile ys file_list none = .ok (some fn) := by
    simp only [selectYearFile] at h
    rcases hx : findYearFile ys file_list none with e | o
    · rw [hx] at h
      cases h
    · cases o with
      | none =>
        rw [hx] at h
        cases h
      | some f =>
        rw [hx] at h
        injection h with h
        subst h
        rfl
  have hno := findYearFile_no_other ys file_list none fn
    (by intro g0 hg0; cases hg0) hfind
  exact otherYearFound_eq_false hno

/-- C5 witness: a directory holding `fom_Y10.txt` (whose name contains both
`Y1` and `Y10`) and `fom_Y1.txt` resolves year `Y1` to `fom_Y1.txt`, never
to the `Y10` file. -/
theorem year_file_disambiguation_applied :
    selectYearFile "Y1" ["fom_Y10.txt", "fom_Y1.txt"] = .ok "fom_Y1.txt" ∧
    strContainsPy "fom_Y10.txt" "Y1" = true ∧
    strContainsPy "fom_Y1.txt" "Y10" = false := by
  refine ⟨by decide, by decide, ?_⟩
  exact year_file_disambiguation "Y1" "fom_Y1.txt" ["fom_Y10.txt", "fom_Y1.txt"]
    (by decide) "Y10" (by decide) (by decide) (by decide)

lemma evalLoop_eq_zipWith (f : ℚ → ℚ → ℚ) (c : ℚ) :
    ∀ (as ds : List ℚ), as.length ≤ ds.length →
      evalLoop f c as ds = .ok (List.zipWith (fun a d => f a d / c) as ds) := by
  intro as
  induction as with
  | nil =>
    intro ds _
    cases ds <;> rfl
  | cons a as ih =>
    intro ds hlen
    cases ds with
    | nil => simp at hlen
    | cons d ds =>
      simp only [List.length_cons] at hlen
      simp only [evalLoop, List.zipWith_cons_cons]
      rw [ih ds (by omega)]

lemma zipWith_div_get (f : ℚ → ℚ → ℚ) (c : ℚ) :
    ∀ (as ds : List ℚ) (i : ℕ), i < as.length → as.length ≤ ds.length →
      (List.zipWith (fun a d => f a d / c) as ds).get? i =
        some (f (as.getD i 0) (ds.getD i 0) / c) := by
  intro as
  induction as with
  | nil =>
    intro ds i hi _
    simp at hi
  | cons a as ih =>
    intro ds i hi hlen
    cases ds with
    | nil => simp at hlen
    | cons d ds =>
      cases i with
      | zero => rfl
      | succ n =>
        simp only [List.length_cons] at hi hlen
        simpa using ih ds n (by omega) (by omega)

lemma emulate_fom_none_eq (rv : ℚ) (f : ℚ → ℚ → ℚ) (as ds : List ℚ)
    (names : Option (List String)) :
    emulate_fom none rv f as ds names =
      match evalLoop f 1 as ds with
      | .ok l => .ok ⟨l, rv⟩
      | .error e => .error e := rfl

lemma emulate_fom_warm_eq (rs : String) (rv : ℚ) (f : ℚ → ℚ → ℚ)
    (as ds : List ℚ) (names : Option (List String)) (hpos : rv > 0) :
    emulate_fom (some rs) rv f as ds names =
      match evalLoop f rv as ds with
      | .ok l => .ok ⟨l, rv⟩
      | .error e => .error e := by
  simp only [emulate_fom]
  rw [if_pos hpos]

lemma emulate_fom_cold_eq (rs : String) (rv : ℚ) (f : ℚ → ℚ → ℚ)
    (as ds : List ℚ) (ns : List String) (k : ℕ) (a d : ℚ)
    (hpos : ¬ rv > 0) (hk : pyIndex ns rs = some k)
    (ha : as.get? k = some a) (hd : ds.get? k = some d) :
    emulate_fom (some rs) rv f as ds (some ns) =
      match evalLoop f (f a d) as ds with
      | .ok l => .ok ⟨l, f a d⟩
      | .error e => .error e := by
  simp only [emulate_fom]
  rw [if_neg hpos]
  rw [hk]
  dsimp only
  rw [ha, hd]

lemma emulate_fom_cold_missing (rs : String) (rv : ℚ) (f : ℚ → ℚ → ℚ)
    (as ds : List ℚ) (ns : List String)
    (hpos : ¬ rv > 0) (hnone : pyIndex ns rs = none) :
    emulate_fom (some rs) rv f as ds (some ns) = .error "ValueError" := by
  simp only [emulate_fom]
  rw [if_neg hpos]
  rw [hnone]

lemma pyIndex_eq_none_of_not_mem :
    ∀ (l : List String) (a : String), a ∉ l → pyIndex l a = none := by
  intro l
  induction l with
  | nil => intro a _; rfl
  | cons x xs ih =>
    intro a ha
    simp only [List.mem_cons, not_or] at ha
    simp only [pyIndex]
    rw [if_neg (fun h => ha.1 h.symm), ih a ha.2]
    rfl

/-- C1: for equally long area and depth sequences, `emulate_fom` with no
renormalization strategy always succeeds, and any successful call returns
exactly one value per input pair, in input order, each equal to the
interpolant at that pair divided by the renormalization constant — a
constant that is literally 1 when no renormalization strategy is
configured. -/
theorem emulate_fom_per_pair (rs : Option String) (rv : ℚ) (f : ℚ → ℚ → ℚ)
    (area_vals depth_vals : List ℚ) (names : Option (List String))
    (hlen : area_vals.length = depth_vals.length) :
    (rs = none →
      isOkE (emulate_fom rs rv f area_vals depth_vals names) = true) ∧
    ∀ res, emulate_fom rs rv f area_vals depth_vals names = .ok res →
      res.fom_vals.length = area_vals.length ∧
      ∀ i, i < area_vals.length →
        res.fom_vals.get? i = some
          (f (area_vals.getD i 0) (depth_vals.getD i 0) /
            (match rs with
             | none => 1
             | some _ => res.renorm_value)) := by
  have hle : area_vals.length ≤ depth_vals.length := le_of_eq hlen
  cases rs with
  | none =>
    constructor
    · intro _
      rw [emulate_fom_none_eq, evalLoop_eq_zipWith f 1 _ _ hle]
      rfl
    · intro res hres
      rw [emulate_fom_none_eq, evalLoop_eq_zipWith f 1 _ _ hle] at hres
      dsimp only at hres
      injection hres with hres
      subst hres
      refine ⟨by simp [List.length_zipWith]; omega, ?_⟩
      intro i hi
      exact zipWith_div_get f 1 area_vals depth_vals i hi hle
  | some rs =>
    constructor
    · intro h
      exact Option.noConfusion h
    · intro res hres
      by_cases hpos : rv > 0
      · rw [emulate_fom_warm_eq rs rv f _ _ _ hpos,
          evalLoop_eq_zipWith f rv _ _ hle] at hres
        dsimp only at hres
        injection hres with hres
        subst hres
        refine ⟨by simp [List.length_zipWith]; omega, ?_⟩
        intro i hi
        exact zipWith_div_get f rv area_vals depth_vals i hi hle
      · cases names with
        | none =>
          simp only [emulate_fom] at hres
          rw [if_neg hpos] at hres
          cases hres
        | some ns =>
          rcases hk : pyIndex ns rs with _ | k
          · rw [emulate_fom_cold_missing rs rv f _ _ _ hpos hk] at hres
            cases hres
          · rcases ha : area_vals.get? k with _ | a
            · simp only [emulate_fom] at hres
              rw [if_neg hpos] at hres
              rw [hk] at hres
              dsimp only at hres
              rw [ha] at hres
              cases hres
            · rcases hd : depth_vals.get? k with _ | d
              · simp only [emulate_fom] at hres
                rw [if_neg hpos] at hres
                rw [hk] at hres
                dsimp only at hres
                rw [ha, hd] at hres
                cases hres
              · rw [emulate_fom_cold_eq rs rv f _ _ ns k a d hpos hk ha hd,
                  evalLoop_eq_zipWith f (f a d) _ _ hle] at hres
                dsimp only at hres
                injection hres with hres
                subst hres
                refine ⟨by simp [List.length_zipWith]; omega, ?_⟩
                intro i hi
                exact zipWith_div_get f (f a d) area_vals depth_vals i hi hle

/-- C1 witness: a two-strategy call with no renormalization strategy
configured succeeds and emulates both pairs in order, divided by 1. -/
theorem emulate_fom_per_pair_applied :
    isOkE (emulate_fom none 5 (fun a d => a + d) [1, 2] [3, 4] none) = true ∧
    List.get? ([(1 + 3) / 1, (2 + 4) / 1] : List ℚ) 0 = some ((1 + 3) / 1) := by
  constructor
  · exact (emulate_fom_per_pair none 5 (fun a d => a + d) [1, 2] [3, 4] none
      rfl).1 rfl
  · rfl

lemma evalLoop_ok_eq (f : ℚ → ℚ → ℚ) (c : ℚ) :
    ∀ (as ds l : List ℚ), evalLoop f c as ds = .ok l →
      l = List.zipWith (fun a d => f a d / c) as ds := by
  intro as
  induction as with
  | nil =>
    intro ds l h
    cases ds with
    | nil => injection h with h; subst h; rfl
    | cons d ds => injection h with h; subst h; rfl
  | cons a as ih =>
    intro ds l h
    cases ds with
    | nil => cases h
    | cons d ds =>
      simp only [evalLoop] at h
      rcases hev : evalLoop f c as ds with e | t
      · rw [hev] at h
        cases h
      · rw [hev] at h
        injection h with h
        subst h
        rw [List.zipWith_cons_cons, ih ds t hev]

/-- C7: when the renormalization constant is computed in the current call
from the reference strategy and the interpolated reference value is nonzero,
the output entry at the reference strategy's index is exactly 1. -/
theorem renorm_reference_outputs_one (rs : String) (rv a d : ℚ)
    (f : ℚ → ℚ → ℚ) (area_vals depth_vals : List ℚ) (ns : List String)
    (k : ℕ) (hcold : ¬ rv > 0) (hk : pyIndex ns rs = some k)
    (ha : area_vals.get? k = some a) (hd : depth_vals.get? k = some d)
    (hlen : area_vals.length ≤ depth_vals.length) (hnz : f a d ≠ 0) :
    (emulate_fom (some rs) rv f area_vals depth_vals (some ns)).map
      (fun r => r.fom_vals.get? k) = .ok (some 1) := by
  rw [emulate_fom_cold_eq rs rv f _ _ ns k a d hcold hk ha hd,
    evalLoop_eq_zipWith f (f a d) _ _ hlen]
  obtain ⟨hklen, -⟩ := List.get?_eq_some.mp ha
  simp only [Except.map]
  rw [zipWith_div_get f (f a d) area_vals depth_vals k hklen hlen]
  have hga : area_vals.getD k 0 = a := by
    rw [List.getD_eq_get?, ha]
    rfl
  have hgd : depth_vals.getD k 0 = d := by
    rw [List.getD_eq_get?, hd]
    rfl
  rw [hga, hgd, div_self hnz]

/-- C7 witness: a cold-cache call whose reference strategy interpolates to
6 ≠ 0 outputs exactly 1 at the reference strategy's own index. -/
theorem renorm_reference_outputs_one_applied :
    (emulate_fom (some "s") (-100) (fun a d => a * d) [2] [3]
      (some ["s"])).map (fun r => r.fom_vals.get? 0) = .ok (some 1) :=
  renorm_reference_outputs_one "s" (-100) 2 3 (fun a d => a * d) [2] [3]
    ["s"] 0 (by norm_num) (by decide) (by decide) (by decide) (by decide)
    (by norm_num)

/-- C8 counterexample: with a positive cached renormalization value already
stored, a call whose strategy list does not contain the configured
renormalization strategy still succeeds: the claim that every such call
raises is false. -/
theorem missing_renorm_strategy_cached_ok :
    isOkE (emulate_fom (some "kraken_2026") 5 (fun _ _ => (7 : ℚ)) [1] [1]
      (some ["some_other"])) = true ∧
    ("kraken_2026" ∈ ["some_other"] → False) := by
  constructor
  · norm_num [emulate_fom, evalLoop, isOkE]
  · decide

/-- C8 amended: a call with a configured renormalization strategy absent
from the supplied strategy list raises, provided no positive cached
renormalization value exists yet (with a warm cache the lookup is skipped). -/
theorem missing_renorm_strategy_errors (rs : String) (rv : ℚ)
    (f : ℚ → ℚ → ℚ) (area_vals depth_vals : List ℚ) (ns : List String)
    (habs : rs ∉ ns) (hcold : ¬ rv > 0) :
    emulate_fom (some rs) rv f area_vals depth_vals (some ns) =
      .error "ValueError" :=
  emulate_fom_cold_missing rs rv f _ _ ns hcold
    (pyIndex_eq_none_of_not_mem ns rs habs)

/-- C8 witness: on a cold cache (the sentinel initial value), a missing
strategy name raises. -/
theorem missing_renorm_strategy_errors_applied :
    emulate_fom (some "kraken_2026") renorm_value_init (fun _ _ => (7 : ℚ))
      [1] [1] (some ["some_other"]) = .error "ValueError" :=
  missing_renorm_strategy_errors "kraken_2026" renorm_value_init
    (fun _ _ => (7 : ℚ)) [1] [1] ["some_other"] (by decide)
    (by norm_num [renorm_value_init])

/-- C3 counterexample: a first call computes and stores a nonpositive
reference value (-2), yet the next call does not reuse it as its divisor:
it recomputes the constant (obtaining 7), overwrites the store, and its
output is 7/7 = 1, not the 7/(-2) that reuse would give. -/
theorem renorm_recomputed_after_nonpositive :
    emulate_fom (some "s") renorm_value_init (fun _ _ => (-2 : ℚ)) [1] [1]
      (some ["s"]) = .ok ⟨[1], -2⟩ ∧
    emulate_fom (some "s") (-2) (fun _ _ => (7 : ℚ)) [1] [1] (some ["s"]) =
      .ok ⟨[1], 7⟩ ∧
    (7 : ℚ) ≠ -2 ∧ (1 : ℚ) ≠ 7 / (-2) := by
  refine ⟨?_, ?_, by norm_num, by norm_num⟩
  · norm_num [emulate_fom, evalLoop, pyIndex, renorm_value_init]
  · norm_num [emulate_fom, evalLoop, pyIndex]

/-- C3 amended: the stored renormalization value is reused only while
strictly positive: a call entered with a positive stored value divides every
output by it and returns it unchanged (no recomputation, no overwrite), so
the constant is computed at most once only once a positive value is stored;
a nonpositive stored value is recomputed on the next call. -/
theorem renorm_positive_cached_once (rs : String) (rv : ℚ) (f : ℚ → ℚ → ℚ)
    (area_vals depth_vals : List ℚ) (names : Option (List String))
    (res : EmulateResult) (hpos : 0 < rv)
    (hok : emulate_fom (some rs) rv f area_vals depth_vals names = .ok res) :
    res.renorm_value = rv ∧
    res.fom_vals =
      List.zipWith (fun a d => f a d / rv) area_vals depth_vals := by
  rw [emulate_fom_warm_eq rs rv f _ _ _ hpos] at hok
  rcases hev : evalLoop f rv area_vals depth_vals with e | l
  · rw [hev] at hok
    cases hok
  · rw [hev] at hok
    injection hok with hok
    subst hok
    exact ⟨rfl, evalLoop_ok_eq f rv area_vals depth_vals l hev⟩

/-- C3 witness: a call with positive stored value 5 divides by 5 and keeps
the store at 5, independently of the (empty) strategy list. -/
theorem renorm_positive_cached_once_applied :
    EmulateResult.renorm_value ⟨[(7 : ℚ) / 5], 5⟩ = 5 ∧
    ([(7 : ℚ) / 5]) =
      List.zipWith (fun a d => (fun _ _ => (7 : ℚ)) a d / 5) [1] [1] :=
  renorm_positive_cached_once "s" 5 (fun _ _ => (7 : ℚ)) [1] [1] (some [])
    ⟨[7 / 5], 5⟩ (by norm_num) (by norm_num [emulate_fom, evalLoop])

/-- C10: the renormalization cache is keyed on strict positivity: the
sentinel initial value -100 is not positive; a positive stored value is
reused as the divisor and survives the call unchanged; a nonpositive stored
value triggers a fresh computation whose result — positive or not — is used
as the current divisor and becomes the new stored value. -/
theorem renorm_cache_positivity (rs : String) (rv : ℚ) (f : ℚ → ℚ → ℚ)
    (area_vals depth_vals : List ℚ) (ns : List String) (k : ℕ) (a d : ℚ) :
    renorm_value_init = -100 ∧ ¬ renorm_value_init > 0 ∧
    (rv > 0 →
      emulate_fom (some rs) rv f area_vals depth_vals (some ns) =
        match evalLoop f rv area_vals depth_vals with
        | .ok l => .ok ⟨l, rv⟩
        | .error e => .error e) ∧
    (¬ rv > 0 → pyIndex ns rs = some k →
      area_vals.get? k = some a → depth_vals.get? k = some d →
      emulate_fom (some rs) rv f area_vals depth_vals (some ns) =
        match evalLoop f (f a d) area_vals depth_vals with
        | .ok l => .ok ⟨l, f a d⟩
        | .error e => .error e) := by
  refine ⟨rfl, by norm_num [renorm_value_init], ?_, ?_⟩
  · intro hpos
    exact emulate_fom_warm_eq rs rv f _ _ _ hpos
  · intro hcold hk ha hd
    exact emulate_fom_cold_eq rs rv f _ _ ns k a d hcold hk ha hd

/-- C10 witness: with stored value 5 the call divides by 5 and keeps 5; with
stored value -2 the call recomputes, divides by the fresh value 7 and stores
7. -/
theorem renorm_cache_positivity_applied :
    emulate_fom (some "s") 5 (fun _ _ => (7 : ℚ)) [1] [1] (some ["s"]) =
      .ok ⟨[7 / 5], 5⟩ ∧
    emulate_fom (some "s") (-2) (fun _ _ => (7 : ℚ)) [1] [1] (some ["s"]) =
      .ok ⟨[7 / 7], 7⟩ := by
  constructor
  · have h := (renorm_cache_positivity "s" 5 (fun _ _ => (7 : ℚ)) [1] [1]
      ["s"] 0 1 1).2.2.1 (by norm_num)
    rw [h]
    norm_num [evalLoop]
  · have h := (renorm_cache_positivity "s" (-2) (fun _ _ => (7 : ℚ)) [1] [1]
      ["s"] 0 1 1).2.2.2 (by norm_num) (by decide) (by decide) (by decide)
    rw [h]
    norm_num [evalLoop]

/-- C6 counterexample: for a short row naming `kraken_2026`, the parsed
visit count is 15, the truncation of the hardcoded entry 15.50727567502652;
it does not equal the entry itself, so the claim's "equals the hardcoded
table's entry" fails for non-integer entries. -/
theorem niexp_fallback_not_raw_entry :
    parseStratLine 0 "| kraken_2026 | x | 100.0 | 25.0 |" =
      .ok ⟨"kraken_2026", 100, 25, 15⟩ ∧
    (husniLookup "kraken_2026").map (fun row => row 0) =
      some (decVal 15 50727567502652 14) ∧
    ((15 : ℚ) ≠ decVal 15 50727567502652 14) :=
  ⟨by decide, by decide, by decide⟩

/-- C6 amended: the parsed visit count is the integer value of field 13 when
the row has exactly 14 pipe-delimited fields with that field non-empty, and
otherwise the integer truncation of the hardcoded table's entry for that
strategy name and year, or 0 when the name is absent from the table. -/
theorem niexp_parse_rule (year_ind : Fin 4) (line : String) (r : StratRow)
    (h : parseStratLine year_ind line = .ok r) :
    ((pySplit '|' line).length = 14 ∧ (pySplit '|' line).getD 13 "" ≠ "" →
      pyIntOfString ((pySplit '|' line).getD 13 "") = some r.niexp) ∧
    (¬ ((pySplit '|' line).length = 14 ∧
        (pySplit '|' line).getD 13 "" ≠ "") →
      r.niexp =
        match husniLookup (strTrimPy ((pySplit '|' line).getD 1 "")) with
        | some row => pyTrunc (row year_ind)
        | none => 0) := by
  simp only [parseStratLine] at h
  rcases h1 : (pySplit '|' line).get? 1 with _ | f1 <;> rw [h1] at h
  · cases h
  rcases h3 : (pySplit '|' line).get? 3 with _ | f3 <;> rw [h3] at h
  · cases h
  rcases h4 : (pySplit '|' line).get? 4 with _ | f4 <;> rw [h4] at h
  · cases h
  dsimp only at h
  rcases hf3 : pyFloat f3 with _ | a <;> rw [hf3] at h
  · cases h
  rcases hf4 : pyFloat f4 with _ | d <;> rw [hf4] at h
  · cases h
  dsimp only at h
  rcases hni : niexpOf (pySplit '|' line) year_ind with e | v <;> rw [hni] at h
  · cases h
  injection h with h
  subst h
  simp only [niexpOf] at hni
  by_cases hcond : (pySplit '|' line).length = 14 ∧
      (pySplit '|' line).getD 13 "" ≠ ""
  · rw [if_pos hcond] at hni
    constructor
    · intro _
      rcases hint : pyIntOfString ((pySplit '|' line).getD 13 "")
          with _ | w <;> rw [hint] at hni
      · cases hni
      · injection hni with hni
        rw [hni]
    · intro hc
      exact absurd hcond hc
  · rw [if_neg hcond] at hni
    constructor
    · intro hc
      exact absurd hc hcond
    · intro _
      rcases hlk : husniLookup (strTrimPy ((pySplit '|' line).getD 1 ""))
          with _ | row <;> rw [hlk] at hni
      · injection hni with hni
        rw [← hni]
      · injection hni with hni
        rw [← hni]

/-- C6 witness: a 14-field row takes its visit count 42 from field 13, and a
short `kraken_2026` row falls back to the truncated table entry. -/
theorem niexp_parse_rule_applied :
    parseStratLine 0 "|name|x|1.0|2.0||||||||| 42" = .ok ⟨"name", 1, 2, 42⟩ ∧
    pyIntOfString " 42" =
      some (StratRow.niexp ⟨"name", 1, 2, 42⟩) ∧
    parseStratLine 2 "| kraken_2026 | x | 100.0 | 25.0 |" =
      .ok ⟨"kraken_2026", 100, 25, 150⟩ ∧
    StratRow.niexp ⟨"kraken_2026", 100, 25, 150⟩ =
      match husniLookup (strTrimPy
          ((pySplit '|' "| kraken_2026 | x | 100.0 | 25.0 |").getD 1 "")) with
      | some row => pyTrunc (row 2)
      | none => 0 := by
  refine ⟨by decide, ?_, by decide, ?_⟩
  · exact ((niexp_parse_rule 0 "|name|x|1.0|2.0||||||||| 42"
      ⟨"name", 1, 2, 42⟩ (by decide)).1 (by decide)).symm
  · exact (niexp_parse_rule 2 "| kraken_2026 | x | 100.0 | 25.0 |"
      ⟨"kraken_2026", 100, 25, 150⟩ (by decide)).2 (by decide)
